import Mathlib

/-!
Study chat bot: the `POST /chatbot-file` handler of `index.js`

A shallow embedding of the route handler (lines 20-92 of `index.js`) and proofs
of its response contract.

* JavaScript strings are sequences of UTF-16 code units, so a string is a
  `List Nat` of code units; `substring(0, 500)` is `List.take 500`.
* The collaborators that are not code of this repository (the multer middleware,
  `pdfParse`, `generateContent` / `response.text()`, `JSON.parse`, and the wording
  of the engine's `TypeError`) are fields of `Env`; the general theorems hold for every
  `Env`, and `exampleEnv` is one instance, used to evaluate the handler on
  concrete model texts.
* `res.json(v)` sends the text `JSON.stringify(v)`; `Response.body` is the JSON
  value of that text, so a non-finite number arrives as `null` and `-0` as `0`.
* `upload.single('file')` runs before the callback; `route` is the whole route of
  line 20 and `handler` is its callback.
-/

namespace StudyChatBot

/-! ## Strings -/

/-- A JavaScript string: its UTF-16 code units. -/
abbrev JStr := List Nat

/-- The code units of a literal made of Basic-Multilingual-Plane characters
(every literal of `index.js` is ASCII). -/
def lit (s : String) : JStr := s.toList.map Char.toNat

/-- Worker of `replaceAll`: `skip` counts the code units of the current match
that are still to be consumed. -/
def replaceAllAux (pat : JStr) : Nat → JStr → JStr
  | _, [] => []
  | skip + 1, _ :: cs => replaceAllAux pat skip cs
  | 0, c :: cs =>
    if !pat.isEmpty && pat.isPrefixOf (c :: cs) then replaceAllAux pat (pat.length - 1) cs
    else c :: replaceAllAux pat 0 cs

/-- The call `s.replace(/pat/g, '')` for a pattern of literal characters: scanning
from the left, every match found at or after the end of the previous match is
deleted. -/
def replaceAll (pat : JStr) (s : JStr) : JStr := replaceAllAux pat 0 s

/-- The fence opener of line 55, three backticks followed by `json`. -/
def fenceJson : JStr := [96, 96, 96, 106, 115, 111, 110]

/-- The bare fence marker of line 55, three backticks. -/
def fence : JStr := [96, 96, 96]

/-- The code units `String.prototype.trim` strips: ECMAScript WhiteSpace and
LineTerminator. -/
def isWhiteSpace (c : Nat) : Bool :=
  c == 0x09 || c == 0x0A || c == 0x0B || c == 0x0C || c == 0x0D || c == 0x20 ||
  c == 0xA0 || c == 0x1680 || (0x2000 ≤ c && c ≤ 0x200A) || c == 0x2028 ||
  c == 0x2029 || c == 0x202F || c == 0x205F || c == 0x3000 || c == 0xFEFF

/-- The call `s.trim()`. -/
def trim (s : JStr) : JStr := (s.dropWhile isWhiteSpace).rdropWhile isWhiteSpace

/-- Line 55: `rawText.replace(/[fence]json/g, '').replace(/[fence]/g, '')`. -/
def stripFences (rawText : JStr) : JStr := replaceAll fence (replaceAll fenceJson rawText)

/-- Lines 55-57: the clean-up of the model's text before parsing. -/
def normalize (rawText : JStr) : JStr := trim (stripFences rawText)

/-! ## JavaScript values -/

/-- A number as `JSON.parse` can produce it: a finite double `± mantissa * 2 ^ exponent`
(`-0` included), or an infinity when the literal overflows. -/
inductive JSNumber where
  | finite (negative : Bool) (mantissa : Nat) (exponent : Int)
  | infinite (negative : Bool)

/-- A value as `JSON.parse` can produce it. The properties of an object are listed
in own-property order. -/
inductive JVal where
  | null
  | bool (b : Bool)
  | num (x : JSNumber)
  | str (s : JStr)
  | arr (items : List JVal)
  | obj (props : List (JStr × JVal))

/-- The result of reading a property: `none` is `undefined`. -/
abbrev JSValue := Option JVal

/-- The abstract operation ToBoolean (truthiness). -/
def toBoolean : JSValue → Bool
  | none => false
  | some .null => false
  | some (.bool b) => b
  | some (.num (.finite _ mantissa _)) => mantissa != 0
  | some (.num (.infinite _)) => true
  | some (.str s) => !s.isEmpty
  | some (.arr _) => true
  | some (.obj _) => true

/-- The test `typeof v === 'object'`. -/
def typeofObject : JVal → Bool
  | .null => true
  | .arr _ => true
  | .obj _ => true
  | _ => false

/-- The call `Array.isArray(v)`. -/
def isArray : JSValue → Bool
  | some (.arr _) => true
  | _ => false

/-- The elements of an array value (no elements for any other value). -/
def arrayItems : JSValue → List JVal
  | some (.arr items) => items
  | _ => []

/-- The value of the first property named `k`. -/
def lookupOwn (k : JStr) : List (JStr × JVal) → JSValue
  | [] => none
  | (k', v) :: rest => if k' = k then some v else lookupOwn k rest

/-- Writing an own property: an existing property keeps its place and takes
the new value, a new property is added at the end. -/
def setOwn (k : JStr) (v : JVal) : List (JStr × JVal) → List (JStr × JVal)
  | [] => [(k, v)]
  | (k', v') :: rest => if k' = k then (k, v) :: rest else (k', v') :: setOwn k v rest

mutual
/-- The JSON value of the text `JSON.stringify(v)`, for a value `v` that came from
`JSON.parse`: a non-finite number is written `null` and `-0` is written `0`;
every other value is written so that it reads back unchanged. -/
def wireValue : JVal → JVal
  | .null => .null
  | .bool b => .bool b
  | .num (.finite negative mantissa exponent) =>
    .num (.finite (negative && mantissa != 0) mantissa exponent)
  | .num (.infinite _) => .null
  | .str s => .str s
  | .arr items => .arr (wireItems items)
  | .obj props => .obj (wireProps props)
/-- The elements of an array, each as `JSON.stringify` writes it. -/
def wireItems : List JVal → List JVal
  | [] => []
  | v :: rest => wireValue v :: wireItems rest
/-- The properties of an object, each value as `JSON.stringify` writes it. -/
def wireProps : List (JStr × JVal) → List (JStr × JVal)
  | [] => []
  | (k, v) :: rest => (k, wireValue v) :: wireProps rest
end

/-- An uploaded file as multer's memory storage provides it. -/
structure UploadedFile where
  buffer : List Nat

/-- The request as the callback sees it after `upload.single('file')`: `req.file`
is absent when the middleware accepted no file. -/
structure Request where
  file : Option UploadedFile

/-- One part of a multipart form body: a text field, or a file under a field name. -/
inductive Part where
  | field (name : JStr) (value : JStr)
  | file (fieldname : JStr) (buffer : List Nat)

/-- An incoming `POST /chatbot-file` request: the parts of its multipart body (no
parts when the body is not a multipart form). -/
structure HttpRequest where
  parts : List Part

/-- The external collaborators of the handler. -/
structure Env where
  /-- The middleware `upload.single('file')` of line 20: the request it hands to the
  callback, or the message of the error it passes to `next`. -/
  upload : HttpRequest → Except JStr Request
  /-- Text extraction `(await pdfParse(buffer)).text`: the text, or a thrown error. -/
  pdfParse : List Nat → Except JStr JStr
  /-- Generation `(await model.generateContent([{ text: prompt }])).response.text()`:
  the model's text, or a thrown error. -/
  generateContent : JStr → Except JStr JStr
  /-- The call `JSON.parse(text)`: the value, or the message of the `SyntaxError`. -/
  jsonParse : JStr → Except JStr JVal
  /-- The message of the `TypeError` the engine throws when property `k` of `null`
  is read. -/
  nullReadMessage : JStr → JStr

/-- The property read `v.k` for one of the names the handler reads (`flashcards`,
`question`, `answer`). None of them is defined on a built-in prototype, and
arrays and strings own only their indices and `length`, so the read is an own
property lookup on an object, `undefined` on any other non-null value, and a
`TypeError` on `null`. -/
def getProp (env : Env) (v : JVal) (k : JStr) : Except JStr JSValue :=
  match v with
  | .null => .error (env.nullReadMessage k)
  | .obj props => .ok (lookupOwn k props)
  | _ => .ok none

/-- The assignment `target.k = v` in sloppy mode: it writes an own property of an
object and is silently ignored on a primitive. (The handler assigns only after
`target.k` was read as an array, so `target` is an object there.) -/
def assignProp (target : JVal) (k : JStr) (v : JVal) : JVal :=
  match target with
  | .obj props => .obj (setOwn k v props)
  | other => other

/-! ## The handler -/

/-- A JSON response: the status code and the JSON value of the body sent. -/
structure Response where
  status : Nat
  body : JVal

/-- The call `res.status(status).json(value)` (`res.json(value)` for status 200):
the body sent is the text `JSON.stringify(value)`. -/
def resJson (status : Nat) (value : JVal) : Response :=
  { status := status, body := wireValue value }

/-- A call to an external collaborator. -/
inductive Call where
  | pdfParse (buffer : List Nat)
  | generateContent (prompt : JStr)

/-- What handling a request produces: the response and the external calls made, in order. -/
structure Outcome where
  response : Response
  calls : List Call

/-- Lines 33-48: the prompt template with the extracted text inserted. -/
def buildPrompt (extractedText : JStr) : JStr :=
  lit ("\nYou are an AI tutor that generates flashcards from study material.\n" ++
    "Take the following content and convert it into flashcards in strict JSON format only.\n" ++
    "Your response must be ONLY valid JSON with no additional text, markdown formatting, or code blocks.\n" ++
    "\nFormat:\n\x7b\n  \"flashcards\": [\n" ++
    "    \x7b \"question\": \"Question 1\", \"answer\": \"Answer 1\" \x7d,\n" ++
    "    \x7b \"question\": \"Question 2\", \"answer\": \"Answer 2\" \x7d\n" ++
    "  ]\n\x7d\n\nInput:\n") ++ extractedText ++ lit "\n"

/-- Lines 70-72, the filter callback
`card && typeof card === 'object' && card.question && card.answer`, as the boolean
`filter` takes it to; `&&` evaluates its right operand only when the left one is truthy. -/
def keepCard (env : Env) (card : JVal) : Except JStr Bool :=
  if !toBoolean (some card) then .ok false
  else if !typeofObject card then .ok false
  else do
    let question ← getProp env card (lit "question")
    if !toBoolean question then .ok false
    else do
      let answer ← getProp env card (lit "answer")
      .ok (toBoolean answer)

/-- Lines 70-72: `cards.filter(callback)`, the callback run on each element in order. -/
def filterCards (env : Env) : List JVal → Except JStr (List JVal)
  | [] => .ok []
  | card :: rest => do
    let keep ← keepCard env card
    let kept ← filterCards env rest
    .ok (if keep then card :: kept else kept)

/-- Line 66: the message of the structure error. -/
def missingArrayMessage : JStr := lit "Response missing required \"flashcards\" array"

/-- Line 75: the message of the emptiness error. -/
def noValidMessage : JStr := lit "No valid flashcards found in response"

/-- Lines 62-76, the body of the inner `try`: the validated value, or the
`message` of the error thrown. -/
def validate (env : Env) (rawText : JStr) : Except JStr JVal := do
  let jsonResponse ← env.jsonParse rawText
  let flashcards ← getProp env jsonResponse (lit "flashcards")
  if !toBoolean flashcards || !isArray flashcards then
    .error missingArrayMessage
  else do
    let kept ← filterCards env (arrayItems flashcards)
    let jsonResponse := assignProp jsonResponse (lit "flashcards") (.arr kept)
    let flashcards ← getProp env jsonResponse (lit "flashcards")
    if (arrayItems flashcards).length = 0 then
      .error noValidMessage
    else
      .ok jsonResponse

/-- Line 82: the prefix of every validation error message. -/
def errorPrefix : JStr := lit "Model output was not valid JSON. "

/-- Lines 81-84: the validation error response. -/
def validationError (message rawText : JStr) : Response :=
  resJson 500 (.obj [(lit "error", .str (errorPrefix ++ message)),
                     (lit "raw", .str (rawText.take 500))])

/-- Lines 51-87: everything the handler does with the text the model returned. -/
def respondToModelText (env : Env) (modelText : JStr) : Response :=
  let rawText := (replaceAll fence (replaceAll fenceJson modelText))
  let rawText := trim rawText
  match validate env rawText with
  | .error message => validationError message rawText
  | .ok jsonResponse => resJson 200 jsonResponse

/-- Line 22: the response to a request without a file. -/
def noFileResponse : Response :=
  resJson 400 (.obj [(lit "error", .str (lit "No file uploaded."))])

/-- Line 90: the response of the outer `catch`. -/
def failureResponse : Response :=
  resJson 500 (.obj [(lit "error", .str (lit "Failed to process PDF and generate flashcards."))])

/-- Lines 20-92: the handler of `POST /chatbot-file`. -/
def handler (env : Env) (req : Request) : Outcome :=
  match req.file with
  | none => { response := noFileResponse, calls := [] }
  | some file =>
    match env.pdfParse file.buffer with
    | .error _ => { response := failureResponse, calls := [.pdfParse file.buffer] }
    | .ok extractedText =>
      let prompt := buildPrompt extractedText
      match env.generateContent prompt with
      | .error _ =>
        { response := failureResponse
          calls := [.pdfParse file.buffer, .generateContent prompt] }
      | .ok modelText =>
        { response := respondToModelText env modelText
          calls := [.pdfParse file.buffer, .generateContent prompt] }

/-- What the client receives from the route: a JSON response of the callback, or the
framework's default error response when the middleware passed an error to `next`
(no error handler is registered, so the callback never runs). -/
inductive RouteResponse where
  | json (response : Response)
  | defaultError (message : JStr)

/-- What the route produces: the response and the external calls made, in order. -/
structure RouteOutcome where
  response : RouteResponse
  calls : List Call

/-- Line 20: the route `app.post('/chatbot-file', upload.single('file'), callback)`. -/
def route (env : Env) (http : HttpRequest) : RouteOutcome :=
  match env.upload http with
  | .error message => { response := .defaultError message, calls := [] }
  | .ok req => { response := .json (handler env req).response, calls := (handler env req).calls }

/-! ## Vocabulary of the specification -/

/-- The request carries no file under the field name `file`. -/
def hasNoFileField (http : HttpRequest) : Bool :=
  http.parts.all fun part =>
    match part with
    | .file fieldname _ => fieldname != lit "file"
    | .field _ _ => true

mutual
/-- The value holds no non-finite number and no negative zero, so `JSON.stringify`
writes it without change. -/
def wireExact : JVal → Bool
  | .null => true
  | .bool _ => true
  | .num (.finite negative mantissa _) => !(negative && mantissa == 0)
  | .num (.infinite _) => false
  | .str _ => true
  | .arr items => wireExactItems items
  | .obj props => wireExactProps props
/-- Every element satisfies `wireExact`. -/
def wireExactItems : List JVal → Bool
  | [] => true
  | v :: rest => wireExact v && wireExactItems rest
/-- Every property value satisfies `wireExact`. -/
def wireExactProps : List (JStr × JVal) → Bool
  | [] => true
  | (_, v) :: rest => wireExact v && wireExactProps rest
end

/-- A value as the body shows it for a kept `question` or `answer`: not the empty
string, and `null` exactly when the parsed value `x` is a non-finite number. -/
def NonEmptyOnWire (x : JVal) : Prop :=
  wireValue x ≠ .str [] ∧ (wireValue x = .null ↔ ∃ negative, x = .num (.infinite negative))

/-- The element `bodyCard` of the body is the kept entry `card` as sent: both are
objects, `card` has a `question` and an `answer`, and `bodyCard` shows each of them
as `JSON.stringify` writes it, present and non-empty. -/
def SentEntry (card bodyCard : JVal) : Prop :=
  ∃ cardProps bodyProps question answer,
    card = .obj cardProps ∧ bodyCard = .obj bodyProps ∧
    lookupOwn (lit "question") cardProps = some question ∧
    lookupOwn (lit "answer") cardProps = some answer ∧
    lookupOwn (lit "question") bodyProps = some (wireValue question) ∧
    lookupOwn (lit "answer") bodyProps = some (wireValue answer) ∧
    NonEmptyOnWire question ∧ NonEmptyOnWire answer

/-- A value that is present and is truthy or `null`. -/
def TruthyOrNull (v : JSValue) : Prop :=
  ∃ y, v = some y ∧ (toBoolean (some y) = true ∨ y = .null)


/-- The specification's wording of an entry that is kept: a non-null structured
value that has a truthy `question` and a truthy `answer`. -/
def specValidEntry : JVal → Bool
  | .obj props =>
    toBoolean (lookupOwn (lit "question") props) && toBoolean (lookupOwn (lit "answer") props)
  | _ => false

/-- The request carried a file, its text was extracted, and the model answered the
prompt with `modelText`. -/
def ModelReturned (env : Env) (req : Request) (modelText : JStr) : Prop :=
  ∃ file extractedText, req.file = some file ∧
    env.pdfParse file.buffer = .ok extractedText ∧
    env.generateContent (buildPrompt extractedText) = .ok modelText

/-- A value that is present and is neither `null` nor the empty string. -/
def PresentNonEmpty (v : JSValue) : Prop :=
  ∃ x, v = some x ∧ x ≠ .null ∧ x ≠ .str []

/-- A value that is a string. -/
def IsString (v : JSValue) : Prop := ∃ s, v = some (.str s)

/-- The body is an object whose `flashcards` field is an array, every element of
which is an object whose `question` and `answer` both satisfy `P`. -/
def FlashcardsBody (P : JSValue → Prop) (body : JVal) : Prop :=
  ∃ props cards, body = .obj props ∧ lookupOwn (lit "flashcards") props = some (.arr cards) ∧
    ∀ card ∈ cards, ∃ cardProps, card = .obj cardProps ∧
      P (lookupOwn (lit "question") cardProps) ∧ P (lookupOwn (lit "answer") cardProps)

/-- The model's text `s` wrapped in a `json` code fence, each marker on a line of its own. -/
def wrapInFence (s : JStr) : JStr := fenceJson ++ [10] ++ s ++ [10] ++ fence

/-- The environment `env` with the model answering `modelText` to every prompt. -/
def answering (env : Env) (modelText : JStr) : Env :=
  { env with generateContent := fun _ => .ok modelText }

/-- The field `k` of a response body (`undefined` when the body has none). -/
def bodyField (k : JStr) (r : Response) : JSValue :=
  match r.body with
  | .obj props => lookupOwn k props
  | _ => none

/-! ## A concrete environment for worked examples -/

/-- The number `1`. -/
def one : JSNumber := .finite false 1 0

/-- The value of `{"flashcards":[{"question":"Q","answer":"A"}]}`. -/
def singleCardValue : JVal :=
  .obj [(lit "flashcards",
    .arr [.obj [(lit "question", .str (lit "Q")), (lit "answer", .str (lit "A"))]])]

/-- The value of `{"topic":"T","flashcards":[{"question":"Q"},{"question":"Q","answer":"A"}]}`. -/
def mixedCardsValue : JVal :=
  .obj [(lit "topic", .str (lit "T")),
    (lit "flashcards",
      .arr [.obj [(lit "question", .str (lit "Q"))],
            .obj [(lit "question", .str (lit "Q")), (lit "answer", .str (lit "A"))]])]

/-- The value of `{"flashcards":[{"question":1,"answer":true}]}`. -/
def numericCardValue : JVal :=
  .obj [(lit "flashcards",
    .arr [.obj [(lit "question", .num one), (lit "answer", .bool true)]])]

/-- The value of `{"flashcards":[{"question":"Q"}]}`. -/
def missingAnswerValue : JVal :=
  .obj [(lit "flashcards", .arr [.obj [(lit "question", .str (lit "Q"))]])]

/-- The value of `{"cards":[]}`. -/
def wrongFieldValue : JVal := .obj [(lit "cards", .arr [])]

/-- The text `{"flashcards":[{"question":"Q","answer":"A"}]}`. -/
def singleCardText : JStr :=
  lit "\x7b\"flashcards\":[\x7b\"question\":\"Q\",\"answer\":\"A\"\x7d]\x7d"

/-- The text `{"topic":"T","flashcards":[{"question":"Q"},{"question":"Q","answer":"A"}]}`. -/
def mixedCardsText : JStr :=
  lit ("\x7b\"topic\":\"T\",\"flashcards\":[\x7b\"question\":\"Q\"\x7d," ++
    "\x7b\"question\":\"Q\",\"answer\":\"A\"\x7d]\x7d")

/-- The text `{"flashcards":[{"question":1,"answer":true}]}`. -/
def numericCardText : JStr :=
  lit "\x7b\"flashcards\":[\x7b\"question\":1,\"answer\":true\x7d]\x7d"

/-- The text `{"flashcards":[{"question":"Q"}]}`. -/
def missingAnswerText : JStr := lit "\x7b\"flashcards\":[\x7b\"question\":\"Q\"\x7d]\x7d"

/-- The text `{"cards":[]}`. -/
def wrongFieldText : JStr := lit "\x7b\"cards\":[]\x7d"

/-- The value of `{"flashcards":[{"question":1e999,"answer":"A"}]}`: the literal
`1e999` exceeds every double and parses to `Infinity`. -/
def overflowCardValue : JVal :=
  .obj [(lit "flashcards",
    .arr [.obj [(lit "question", .num (.infinite false)), (lit "answer", .str (lit "A"))]])]

/-- The text `{"flashcards":[{"question":1e999,"answer":"A"}]}`. -/
def overflowCardText : JStr :=
  lit "\x7b\"flashcards\":[\x7b\"question\":1e999,\"answer\":\"A\"\x7d]\x7d"

/-- The text `null`. -/
def nullText : JStr := lit "null"

/-- A line of prose, ended by a line feed as model output usually is. -/
def proseText : JStr := lit "I could not find any study material.\n"

/-- An extract of `JSON.parse`: the value of each JSON text used in the worked
examples; any other text is reported as a syntax error (the examples use this
only for prose, which is not JSON). -/
def exampleParse (text : JStr) : Except JStr JVal :=
  if text = singleCardText then .ok singleCardValue
  else if text = mixedCardsText then .ok mixedCardsValue
  else if text = numericCardText then .ok numericCardValue
  else if text = missingAnswerText then .ok missingAnswerValue
  else if text = wrongFieldText then .ok wrongFieldValue
  else if text = overflowCardText then .ok overflowCardValue
  else if text = nullText then .ok .null
  else .error (lit "Unexpected token")

/-- Worker of `multerSingle`: `accepted` is the file taken so far. -/
def multerSingleAux (fieldname : JStr) : List Part → Option UploadedFile → Except JStr Request
  | [], accepted => .ok { file := accepted }
  | .field _ _ :: rest, accepted => multerSingleAux fieldname rest accepted
  | .file name buffer :: rest, accepted =>
    if name = fieldname ∧ accepted.isNone then
      multerSingleAux fieldname rest (some { buffer := buffer })
    else
      .error (lit "Unexpected field")

/-- The rule of multer's `single(fieldname)` for a well-formed form within the
default limits: text fields are passed over, the first file under `fieldname`
becomes `req.file`, and any other file part is refused (`LIMIT_UNEXPECTED_FILE`,
message `Unexpected field`). -/
def multerSingle (fieldname : JStr) (http : HttpRequest) : Except JStr Request :=
  multerSingleAux fieldname http.parts none

/-- An environment in which the upload middleware follows `multerSingle`, extraction
yields `notes` and the model answers `modelText`; the `TypeError` wording is V8's. -/
def exampleEnv (modelText : JStr) : Env :=
  { upload := multerSingle (lit "file")
    pdfParse := fun _ => .ok (lit "notes")
    generateContent := fun _ => .ok modelText
    jsonParse := exampleParse
    nullReadMessage := fun k => lit "Cannot read properties of null (reading \x27" ++ k ++ lit "\x27)" }

/-- A request that carries a file. -/
def fileRequest : Request := { file := some { buffer := [37, 80, 68, 70] } }

/-- A form whose only part is a file under the field name `document`. -/
def wrongNameForm : HttpRequest :=
  { parts := [.file (lit "document") [37, 80, 68, 70]] }

/-- A form with a text field and no file. -/
def noFileForm : HttpRequest :=
  { parts := [.field (lit "title") (lit "notes")] }

/-! ## Facts about `replaceAll` -/

theorem replaceAllAux_skip (pat : JStr) (k : Nat) (s : JStr) :
    replaceAllAux pat k s = replaceAllAux pat 0 (s.drop k) := by
  induction s generalizing k with
  | nil => cases k <;> simp [replaceAllAux]
  | cons c cs ih =>
    cases k with
    | zero => simp
    | succ k => simpa [replaceAllAux] using ih k

theorem replaceAll_nil (pat : JStr) : replaceAll pat [] = [] := by
  simp [replaceAll, replaceAllAux]

theorem replaceAll_cons_no_match (pat : JStr) (c : Nat) (cs : JStr)
    (h : ¬ pat <+: c :: cs) : replaceAll pat (c :: cs) = c :: replaceAll pat cs := by
  have h2 : pat.isPrefixOf (c :: cs) = false := by
    rw [← Bool.not_eq_true, List.isPrefixOf_iff_prefix]; exact h
  simp [replaceAll, replaceAllAux, h2]

theorem replaceAll_append_of_ne_nil (pat : JStr) (t : JStr) (hp : pat ≠ []) :
    replaceAll pat (pat ++ t) = replaceAll pat t := by
  cases pat with
  | nil => exact absurd rfl hp
  | cons p ps =>
    have h2 : (p :: ps).isPrefixOf (p :: (ps ++ t)) = true := by
      rw [List.isPrefixOf_iff_prefix]; exact ⟨t, by simp⟩
    simp only [replaceAll, List.cons_append, replaceAllAux]
    rw [if_pos (by simp [h2])]
    rw [replaceAllAux_skip]
    simp

theorem prefix_of_prefix_append_sep (c : Nat) (t : JStr) :
    ∀ (s pat : JStr), c ∉ pat → pat <+: s ++ c :: t → pat <+: s := by
  intro s
  induction s with
  | nil =>
    intro pat hc h
    cases pat with
    | nil => exact List.prefix_refl _
    | cons p ps =>
      rw [List.nil_append, List.cons_prefix_cons] at h
      exact absurd (by simp [h.1]) hc
  | cons x r ih =>
    intro pat hc h
    cases pat with
    | nil => exact List.nil_prefix
    | cons p ps =>
      rw [List.cons_append, List.cons_prefix_cons] at h
      rw [List.cons_prefix_cons]
      exact ⟨h.1, ih ps (fun hm => hc (List.mem_cons_of_mem _ hm)) h.2⟩

theorem replaceAll_append_sep_aux (pat : JStr) (c : Nat) (hc : c ∉ pat) (hp : pat ≠ [])
    (t : JStr) : ∀ (n : Nat) (s : JStr), s.length ≤ n →
      replaceAll pat (s ++ c :: t) = replaceAll pat s ++ c :: replaceAll pat t := by
  have hnil : replaceAll pat ([] ++ c :: t) = replaceAll pat [] ++ c :: replaceAll pat t := by
    rw [replaceAll_nil, List.nil_append, List.nil_append]
    apply replaceAll_cons_no_match
    intro h
    have h2 := prefix_of_prefix_append_sep c t [] pat hc (by simpa using h)
    exact hp (List.prefix_nil.mp h2)
  intro n
  induction n with
  | zero =>
    intro s hs
    have hs2 : s = [] := by simpa using hs
    subst hs2
    exact hnil
  | succ n ih =>
    intro s hs
    cases s with
    | nil => exact hnil
    | cons x r =>
      by_cases hpre : pat <+: x :: r
      · obtain ⟨r', hr'⟩ := hpre
        have hlen : pat.length + r'.length = r.length + 1 := by
          have := congrArg List.length hr'
          simpa using this
        have hpl : 0 < pat.length := List.length_pos.mpr hp
        rw [← hr', List.append_assoc, replaceAll_append_of_ne_nil _ _ hp,
          replaceAll_append_of_ne_nil _ _ hp]
        apply ih
        simp only [List.length_cons] at hs
        omega
      · have hnot : ¬ pat <+: x :: (r ++ c :: t) := fun h =>
          hpre (prefix_of_prefix_append_sep c t (x :: r) pat hc h)
        rw [List.cons_append, replaceAll_cons_no_match _ _ _ hnot,
          replaceAll_cons_no_match _ _ _ hpre, ih r (by simp at hs; omega)]
        simp

/-- A code unit that does not occur in the pattern splits the scan: the text
before it and the text after it are processed independently. -/
theorem replaceAll_append_sep (pat : JStr) (c : Nat) (hc : c ∉ pat) (hp : pat ≠ [])
    (s t : JStr) :
    replaceAll pat (s ++ c :: t) = replaceAll pat s ++ c :: replaceAll pat t :=
  replaceAll_append_sep_aux pat c hc hp t s.length s (Nat.le_refl _)

/-- Removing the matches of a pattern that does not occur changes nothing. -/
theorem replaceAll_of_absent (pat : JStr) :
    ∀ s : JStr, ¬ pat <:+: s → replaceAll pat s = s := by
  intro s
  induction s with
  | nil => intro _; exact replaceAll_nil pat
  | cons c cs ih =>
    intro h
    rw [List.infix_cons_iff, not_or] at h
    rw [replaceAll_cons_no_match _ _ _ h.1, ih h.2]

/-! ## No fence marker survives `replaceAll fence` -/

theorem replaceAll_fence_head1 (r : JStr) (h : ¬ [96] <+: r) :
    ¬ [96] <+: replaceAll fence r := by
  cases r with
  | nil => simp [replaceAll_nil]
  | cons y t =>
    have hy : ¬ (96 = y) := by
      intro e; apply h; rw [List.cons_prefix_cons]; exact ⟨e, List.nil_prefix⟩
    have hnp : ¬ fence <+: y :: t := by
      intro hp; rw [fence, List.cons_prefix_cons] at hp; exact hy hp.1
    rw [replaceAll_cons_no_match _ _ _ hnp, List.cons_prefix_cons]
    exact fun hp => hy hp.1

theorem replaceAll_fence_head2 (cs : JStr) (h : ¬ [96, 96] <+: cs) :
    ¬ [96, 96] <+: replaceAll fence cs := by
  cases cs with
  | nil => simp [replaceAll_nil]
  | cons x r =>
    by_cases hx : 96 = x
    · have hr : ¬ [96] <+: r := by
        intro hp; apply h; rw [List.cons_prefix_cons]; exact ⟨hx, hp⟩
      have hnp : ¬ fence <+: x :: r := by
        intro hp
        rw [fence, List.cons_prefix_cons] at hp
        exact hr (List.IsPrefix.trans ⟨[96], rfl⟩ hp.2)
      rw [replaceAll_cons_no_match _ _ _ hnp, List.cons_prefix_cons]
      exact fun hp => replaceAll_fence_head1 r hr hp.2
    · have hnp : ¬ fence <+: x :: r := by
        intro hp; rw [fence, List.cons_prefix_cons] at hp; exact hx hp.1
      rw [replaceAll_cons_no_match _ _ _ hnp, List.cons_prefix_cons]
      exact fun hp => hx hp.1

theorem replaceAllAux_fence_not_infix :
    ∀ (s : JStr) (k : Nat), ¬ fence <:+: replaceAllAux fence k s := by
  intro s
  induction s with
  | nil =>
    intro k
    have : replaceAllAux fence k [] = [] := by cases k <;> rfl
    rw [this]
    simp [fence]
  | cons c cs ih =>
    intro k
    cases k with
    | succ k => simpa [replaceAllAux] using ih k
    | zero =>
      by_cases hpre : fence <+: c :: cs
      · have h2 : fence.isPrefixOf (c :: cs) = true := by
          rw [List.isPrefixOf_iff_prefix]; exact hpre
        have : replaceAllAux fence 0 (c :: cs) = replaceAllAux fence 2 cs := by
          simp only [replaceAllAux]
          rw [if_pos (by rw [h2]; rfl)]
          rfl
        rw [this]
        exact ih 2
      · have : replaceAllAux fence 0 (c :: cs) = c :: replaceAll fence cs :=
          replaceAll_cons_no_match _ _ _ hpre
        rw [this, List.infix_cons_iff, not_or]
        refine ⟨?_, ih 0⟩
        intro hp
        rw [fence, List.cons_prefix_cons] at hp
        refine replaceAll_fence_head2 cs ?_ hp.2
        intro h2
        apply hpre
        rw [fence, List.cons_prefix_cons]
        exact ⟨hp.1, h2⟩

/-- After `replace(/[fence]/g, '')` the text contains no fence marker. -/
theorem fence_not_infix_replaceAll (s : JStr) : ¬ fence <:+: replaceAll fence s :=
  replaceAllAux_fence_not_infix s 0

theorem fence_infix_fenceJson : fence <:+: fenceJson :=
  ⟨[], [106, 115, 111, 110], rfl⟩

/-! ## Facts about `trim` -/

theorem trim_within (s : JStr) : trim s <:+: s :=
  List.IsInfix.trans (List.rdropWhile_prefix _ _).isInfix (List.dropWhile_suffix _).isInfix

theorem dropWhile_concat_ws (c : Nat) (hc : isWhiteSpace c = true) :
    ∀ x : JStr, (x ++ [c]).dropWhile isWhiteSpace =
      if (x.dropWhile isWhiteSpace) = [] then [] else x.dropWhile isWhiteSpace ++ [c] := by
  intro x
  induction x with
  | nil => simp [List.dropWhile, hc]
  | cons a r ih =>
    by_cases ha : isWhiteSpace a = true
    · simpa [List.dropWhile_cons, ha] using ih
    · simp [List.dropWhile_cons, ha]

theorem trim_wrap_ws (c d : Nat) (hc : isWhiteSpace c = true) (hd : isWhiteSpace d = true)
    (x : JStr) : trim (c :: (x ++ [d])) = trim x := by
  unfold trim
  rw [List.dropWhile_cons_of_pos hc, dropWhile_concat_ws d hd]
  split
  · next h => rw [h]
  · rw [List.rdropWhile_concat_pos _ _ _ hd]

theorem trim_trim (s : JStr) : trim (trim s) = trim s := by
  unfold trim
  generalize hy : s.dropWhile isWhiteSpace = y
  have hhead : ∀ a r, y = a :: r → isWhiteSpace a = false := by
    intro a r e
    have := List.head?_dropWhile_not isWhiteSpace s
    rw [hy, e] at this
    simpa using this
  cases y with
  | nil => simp [List.rdropWhile]
  | cons a r =>
    have ha := hhead a r rfl
    obtain ⟨t, ht⟩ := List.rdropWhile_prefix isWhiteSpace (a :: r)
    cases hz : (a :: r).rdropWhile isWhiteSpace with
    | nil => simp [List.rdropWhile]
    | cons b u =>
      rw [hz] at ht
      have hb : b = a := by simpa using congrArg List.head? ht
      subst hb
      rw [List.dropWhile_cons_of_neg (by simp [ha]), ← hz]
      exact List.rdropWhile_idempotent _ _

/-! ## Facts about property access and the filter -/

theorem lookupOwn_setOwn (k : JStr) (v : JVal) :
    ∀ props, lookupOwn k (setOwn k v props) = some v := by
  intro props
  induction props with
  | nil => simp [setOwn, lookupOwn]
  | cons kv rest ih =>
    obtain ⟨k', v'⟩ := kv
    by_cases hk : k' = k
    · simp [setOwn, lookupOwn, hk]
    · simp [setOwn, lookupOwn, hk, ih]

theorem setOwn_of_lookupOwn (k : JStr) (v : JVal) :
    ∀ props, lookupOwn k props = some v → setOwn k v props = props := by
  intro props
  induction props with
  | nil => simp [lookupOwn]
  | cons kv rest ih =>
    obtain ⟨k', v'⟩ := kv
    by_cases hk : k' = k
    · intro h
      simp only [lookupOwn, hk, if_true, Option.some.injEq] at h
      simp [setOwn, hk, h]
    · simpa [setOwn, lookupOwn, hk] using ih

/-- The filter callback never throws, and it keeps exactly the entries the
specification calls valid. -/
theorem keepCard_eq (env : Env) (card : JVal) :
    keepCard env card = .ok (specValidEntry card) := by
  cases card with
  | null => rfl
  | bool b => cases b <;> rfl
  | num x => cases x <;> simp [keepCard, toBoolean, typeofObject, specValidEntry]
  | str s => simp [keepCard, toBoolean, typeofObject, specValidEntry]
  | arr items => rfl
  | obj props =>
    have h1 : toBoolean (some (JVal.obj props)) = true := rfl
    cases hq : toBoolean (lookupOwn (lit "question") props) <;>
      simp [keepCard, h1, typeofObject, specValidEntry, getProp, hq, bind, Except.bind]

theorem filterCards_eq (env : Env) :
    ∀ cards, filterCards env cards = .ok (cards.filter specValidEntry) := by
  intro cards
  induction cards with
  | nil => rfl
  | cons card rest ih =>
    cases hv : specValidEntry card <;>
      simp [filterCards, keepCard_eq, ih, hv, bind, Except.bind, List.filter]

/-! ## The four outcomes of `validate` -/

theorem validate_of_parse_error (env : Env) (t message : JStr)
    (h : env.jsonParse t = .error message) : validate env t = .error message := by
  simp [validate, h, bind, Except.bind]

theorem validate_of_null (env : Env) (t : JStr) (h : env.jsonParse t = .ok .null) :
    validate env t = .error (env.nullReadMessage (lit "flashcards")) := by
  simp [validate, h, bind, Except.bind, getProp]

theorem validate_of_no_array (env : Env) (t : JStr) (v : JVal)
    (h : env.jsonParse t = .ok v) (hv : v ≠ .null)
    (hno : ∀ items, getProp env v (lit "flashcards") ≠ .ok (some (.arr items))) :
    validate env t = .error missingArrayMessage := by
  have hread : ∃ r, getProp env v (lit "flashcards") = .ok r ∧ isArray r = false := by
    cases v with
    | null => exact absurd rfl hv
    | obj props =>
      refine ⟨lookupOwn (lit "flashcards") props, rfl, ?_⟩
      cases hl : lookupOwn (lit "flashcards") props with
      | none => rfl
      | some x =>
        cases x with
        | arr items => exact absurd (by simp [getProp, hl]) (hno items)
        | _ => rfl
    | _ => exact ⟨none, rfl, rfl⟩
  obtain ⟨r, hr, harr⟩ := hread
  simp [validate, h, bind, Except.bind, hr, harr]

theorem validate_of_array (env : Env) (t : JStr) (props : List (JStr × JVal))
    (cards : List JVal) (h : env.jsonParse t = .ok (.obj props))
    (hl : lookupOwn (lit "flashcards") props = some (.arr cards)) :
    validate env t =
      if (cards.filter specValidEntry).length = 0 then .error noValidMessage
      else .ok (.obj (setOwn (lit "flashcards") (.arr (cards.filter specValidEntry)) props)) := by
  have h1 : ∀ items, toBoolean (some (JVal.arr items)) = true := fun _ => rfl
  simp only [validate, h, bind, Except.bind, getProp, hl, h1, isArray, arrayItems,
    filterCards_eq, assignProp, lookupOwn_setOwn]
  rfl

/-- Every value `validate` returns is an object whose `flashcards` field holds the
non-empty list of the valid entries of the parsed array. -/
theorem validate_ok_inv (env : Env) (t : JStr) (v : JVal) (h : validate env t = .ok v) :
    ∃ props cards, env.jsonParse t = .ok (.obj props) ∧
      lookupOwn (lit "flashcards") props = some (.arr cards) ∧
      cards.filter specValidEntry ≠ [] ∧
      v = .obj (setOwn (lit "flashcards") (.arr (cards.filter specValidEntry)) props) := by
  cases hp : env.jsonParse t with
  | error m => rw [validate_of_parse_error env t m hp] at h; cases h
  | ok parsed =>
    by_cases hnull : parsed = .null
    · subst hnull; rw [validate_of_null env t hp] at h; cases h
    · by_cases harr : ∃ items, getProp env parsed (lit "flashcards") = .ok (some (.arr items))
      · obtain ⟨cards, hc⟩ := harr
        cases parsed with
        | obj props =>
          have hl : lookupOwn (lit "flashcards") props = some (.arr cards) := by
            simpa [getProp] using hc
          rw [validate_of_array env t props cards hp hl] at h
          by_cases hf : (cards.filter specValidEntry).length = 0
          · rw [if_pos hf] at h; cases h
          · rw [if_neg hf] at h
            exact ⟨props, cards, rfl, hl, fun e => hf (by rw [e]; rfl), by cases h; rfl⟩
        | null => exact absurd rfl hnull
        | bool b => simp [getProp] at hc
        | num x => simp [getProp] at hc
        | str s => simp [getProp] at hc
        | arr items => simp [getProp] at hc
      · rw [validate_of_no_array env t parsed hp hnull (fun items hi => harr ⟨items, hi⟩)] at h
        cases h

/-! ## From the handler to the validation stage -/

theorem handler_of_modelReturned (env : Env) (req : Request) (s : JStr)
    (h : ModelReturned env req s) :
    (handler env req).response = respondToModelText env s := by
  obtain ⟨file, text, hf, he, hg⟩ := h
  simp [handler, hf, he, hg]

theorem respondToModelText_eq (env : Env) (s : JStr) :
    respondToModelText env s =
      match validate env (normalize s) with
      | .error message => validationError message (normalize s)
      | .ok jsonResponse => resJson 200 jsonResponse := rfl

theorem respondToModelText_status (env : Env) (s : JStr)
    (h : (respondToModelText env s).status = 200) :
    ∃ v, validate env (normalize s) = .ok v ∧ respondToModelText env s = resJson 200 v := by
  rw [respondToModelText_eq] at h ⊢
  cases hv : validate env (normalize s) with
  | error m => rw [hv] at h; simp [validationError, resJson] at h
  | ok v => exact ⟨v, rfl, rfl⟩

theorem handler_status_ok (env : Env) (req : Request)
    (h : (handler env req).response.status = 200) :
    ∃ s v, ModelReturned env req s ∧ validate env (normalize s) = .ok v ∧
      (handler env req).response = resJson 200 v := by
  unfold handler at h ⊢
  cases hf : req.file with
  | none => rw [hf] at h; simp [noFileResponse, resJson] at h
  | some file =>
    rw [hf] at h
    cases he : env.pdfParse file.buffer with
    | error e => simp [he, failureResponse, resJson] at h
    | ok text =>
      cases hg : env.generateContent (buildPrompt text) with
      | error e => simp [he, hg, failureResponse, resJson] at h
      | ok s =>
        simp only [he, hg] at h ⊢
        obtain ⟨v, hv, hr⟩ := respondToModelText_status env s h
        exact ⟨s, v, ⟨file, text, hf, he, hg⟩, hv, hr⟩

theorem specValidEntry_inv (card : JVal) (h : specValidEntry card = true) :
    ∃ cardProps, card = .obj cardProps ∧
      toBoolean (lookupOwn (lit "question") cardProps) = true ∧
      toBoolean (lookupOwn (lit "answer") cardProps) = true := by
  cases card with
  | obj props =>
    simp only [specValidEntry, Bool.and_eq_true] at h
    exact ⟨props, rfl, h.1, h.2⟩
  | null => simp [specValidEntry] at h
  | bool b => simp [specValidEntry] at h
  | num x => simp [specValidEntry] at h
  | str s => simp [specValidEntry] at h
  | arr items => simp [specValidEntry] at h

/-- What a 200 response carries: the parsed object with its `flashcards` array
replaced by the non-empty list of its valid entries, as `res.json` sends it. -/
theorem ok_response_inv (env : Env) (req : Request)
    (h : (handler env req).response.status = 200) :
    ∃ (s : JStr) (props : List (JStr × JVal)) (cards : List JVal),
      ModelReturned env req s ∧ env.jsonParse (normalize s) = .ok (.obj props) ∧
      lookupOwn (lit "flashcards") props = some (.arr cards) ∧
      cards.filter specValidEntry ≠ [] ∧
      (handler env req).response =
        resJson 200 (.obj (setOwn (lit "flashcards") (.arr (cards.filter specValidEntry)) props)) := by
  obtain ⟨s, v, hm, hv, hr⟩ := handler_status_ok env req h
  obtain ⟨props, cards, hp, hl, hne, hveq⟩ := validate_ok_inv env (normalize s) v hv
  exact ⟨s, props, cards, hm, hp, hl, hne, by rw [hr, hveq]⟩

/-! ## Facts about serialisation -/

theorem wireItems_eq_map (items : List JVal) : wireItems items = items.map wireValue := by
  induction items with
  | nil => rfl
  | cons v rest ih => simp [wireItems, ih]

theorem lookupOwn_wireProps (k : JStr) :
    ∀ props, lookupOwn k (wireProps props) = (lookupOwn k props).map wireValue := by
  intro props
  induction props with
  | nil => rfl
  | cons kv rest ih =>
    obtain ⟨k', v⟩ := kv
    by_cases hk : k' = k
    · simp [wireProps, lookupOwn, hk]
    · simp [wireProps, lookupOwn, hk, ih]

mutual
theorem wireValue_of_exact : ∀ v : JVal, wireExact v = true → wireValue v = v
  | .null, _ => rfl
  | .bool _, _ => rfl
  | .num (.finite negative mantissa exponent), h => by
    cases negative <;> simp_all [wireValue, wireExact]
  | .num (.infinite _), h => by simp [wireExact] at h
  | .str _, _ => rfl
  | .arr items, h => by
    simp only [wireValue, wireExact] at h ⊢
    rw [wireItems_of_exact items h]
  | .obj props, h => by
    simp only [wireValue, wireExact] at h ⊢
    rw [wireProps_of_exact props h]
theorem wireItems_of_exact :
    ∀ items : List JVal, wireExactItems items = true → wireItems items = items
  | [], _ => rfl
  | v :: rest, h => by
    simp only [wireExactItems, Bool.and_eq_true] at h
    simp only [wireItems]
    rw [wireValue_of_exact v h.1, wireItems_of_exact rest h.2]
theorem wireProps_of_exact :
    ∀ props : List (JStr × JVal), wireExactProps props = true → wireProps props = props
  | [], _ => rfl
  | (k, v) :: rest, h => by
    simp only [wireExactProps, Bool.and_eq_true] at h
    simp only [wireProps]
    rw [wireValue_of_exact v h.1, wireProps_of_exact rest h.2]
end

theorem wireExactItems_filter (p : JVal → Bool) :
    ∀ items, wireExactItems items = true → wireExactItems (items.filter p) = true := by
  intro items
  induction items with
  | nil => intro _; rfl
  | cons v rest ih =>
    intro h
    simp only [wireExactItems, Bool.and_eq_true] at h
    cases hp : p v
    · simpa [List.filter, hp] using ih h.2
    · simp [List.filter, hp, wireExactItems, h.1, ih h.2]

theorem wireExact_of_lookupOwn (k : JStr) (v : JVal) :
    ∀ props, wireExactProps props = true → lookupOwn k props = some v → wireExact v = true := by
  intro props
  induction props with
  | nil => intro _ h; simp [lookupOwn] at h
  | cons kv rest ih =>
    obtain ⟨k', v'⟩ := kv
    intro he hl
    simp only [wireExactProps, Bool.and_eq_true] at he
    by_cases hk : k' = k
    · simp only [lookupOwn, hk, if_true, Option.some.injEq] at hl
      rw [← hl]; exact he.1
    · simp only [lookupOwn, hk, if_false] at hl
      exact ih he.2 hl

theorem wireExactProps_setOwn (k : JStr) (v : JVal) (hv : wireExact v = true) :
    ∀ props, wireExactProps props = true → wireExactProps (setOwn k v props) = true := by
  intro props
  induction props with
  | nil => intro _; simp [setOwn, wireExactProps, hv]
  | cons kv rest ih =>
    obtain ⟨k', v'⟩ := kv
    intro he
    simp only [wireExactProps, Bool.and_eq_true] at he
    by_cases hk : k' = k
    · simp [setOwn, hk, wireExactProps, hv, he.2]
    · simp [setOwn, hk, wireExactProps, he.1, ih he.2]

/-- Replacing the `flashcards` array of an object that `JSON.stringify` writes
without change by a filtered copy gives an object written without change. -/
theorem wireExact_filtered (p : JVal → Bool) (props : List (JStr × JVal)) (cards : List JVal)
    (he : wireExact (.obj props) = true)
    (hl : lookupOwn (lit "flashcards") props = some (.arr cards)) :
    wireExact (.obj (setOwn (lit "flashcards") (.arr (cards.filter p)) props)) = true := by
  simp only [wireExact] at he ⊢
  have hc : wireExact (.arr cards) = true := wireExact_of_lookupOwn _ _ props he hl
  simp only [wireExact] at hc
  exact wireExactProps_setOwn _ _ (by simpa [wireExact] using wireExactItems_filter p cards hc)
    props he

theorem nonEmptyOnWire_of_truthy (x : JVal) (h : toBoolean (some x) = true) :
    NonEmptyOnWire x := by
  cases x with
  | null => simp [toBoolean] at h
  | bool b => simp [NonEmptyOnWire, wireValue]
  | num n =>
    cases n with
    | finite negative mantissa exponent => simp [NonEmptyOnWire, wireValue]
    | infinite negative => simp [NonEmptyOnWire, wireValue]
  | str s =>
    have hs : s ≠ [] := by
      intro e; subst e; simp [toBoolean] at h
    simp [NonEmptyOnWire, wireValue, hs]
  | arr items => simp [NonEmptyOnWire, wireValue]
  | obj props => simp [NonEmptyOnWire, wireValue]

theorem truthyOrNull_of_truthy (x : JVal) (h : toBoolean (some x) = true) :
    TruthyOrNull (some (wireValue x)) := by
  refine ⟨wireValue x, rfl, ?_⟩
  cases x with
  | null => simp [toBoolean] at h
  | bool b => exact Or.inl h
  | num n =>
    cases n with
    | finite negative mantissa exponent => exact Or.inl h
    | infinite negative => exact Or.inr rfl
  | str s => exact Or.inl h
  | arr items => exact Or.inl rfl
  | obj props => exact Or.inl rfl

theorem some_of_truthy (v : JSValue) (h : toBoolean v = true) : ∃ x, v = some x := by
  cases v with
  | none => simp [toBoolean] at h
  | some x => exact ⟨x, rfl⟩

theorem bodyField_flashcards_resJson (status : Nat) (props : List (JStr × JVal))
    (kept : List JVal) :
    bodyField (lit "flashcards")
        (resJson status (.obj (setOwn (lit "flashcards") (.arr kept) props))) =
      some (.arr (kept.map wireValue)) := by
  simp [bodyField, resJson, wireValue, lookupOwn_wireProps, lookupOwn_setOwn, wireItems_eq_map]

theorem handler_no_file (env : Env) (req : Request) (h : req.file = none) :
    (handler env req).response =
      ⟨400, .obj [(lit "error", .str (lit "No file uploaded."))]⟩ ∧
    (handler env req).calls = [] := by
  have hh : handler env req = { response := noFileResponse, calls := [] } := by
    simp [handler, h]
  rw [hh]
  exact ⟨rfl, rfl⟩

theorem errorPrefix_missingArray :
    errorPrefix ++ missingArrayMessage =
      lit "Model output was not valid JSON. Response missing required \"flashcards\" array" := by
  decide

theorem errorPrefix_noValid :
    errorPrefix ++ noValidMessage =
      lit "Model output was not valid JSON. No valid flashcards found in response" := by
  decide

theorem normalize_of_clean (s : JStr) (hf : ¬ fence <:+: s) (ht : trim s = s) :
    normalize s = s := by
  have hj : ¬ fenceJson <:+: s := fun h => hf (List.IsInfix.trans fence_infix_fenceJson h)
  unfold normalize stripFences
  rw [replaceAll_of_absent _ _ hj, replaceAll_of_absent _ _ hf, ht]

theorem normalize_wrapInFence (s : JStr) : normalize (wrapInFence s) = normalize s := by
  have h1 : (10 : Nat) ∉ fenceJson := by decide
  have h2 : (10 : Nat) ∉ fence := by decide
  have e1 : replaceAll fenceJson (wrapInFence s) = 10 :: (replaceAll fenceJson s ++ 10 :: fence) := by
    have : wrapInFence s = fenceJson ++ ([] ++ 10 :: (s ++ 10 :: fence)) := by
      simp [wrapInFence]
    rw [this, replaceAll_append_of_ne_nil _ _ (by decide),
      replaceAll_append_sep _ _ h1 (by decide), replaceAll_append_sep _ _ h1 (by decide),
      replaceAll_nil]
    have : replaceAll fenceJson fence = fence := by decide
    rw [this]
    rfl
  have e2 : replaceAll fence (10 :: (replaceAll fenceJson s ++ 10 :: fence)) =
      10 :: (replaceAll fence (replaceAll fenceJson s) ++ [10]) := by
    have : 10 :: (replaceAll fenceJson s ++ 10 :: fence) =
        [] ++ 10 :: (replaceAll fenceJson s ++ 10 :: fence) := rfl
    rw [this, replaceAll_append_sep _ _ h2 (by decide), replaceAll_append_sep _ _ h2 (by decide),
      replaceAll_nil]
    have : replaceAll fence fence = [] := by decide
    rw [this]
    rfl
  unfold normalize stripFences
  rw [e1, e2]
  exact trim_wrap_ws 10 10 (by decide) (by decide) _

theorem str_ne (a b : JStr) (h : a ≠ b) : some (JVal.str a) ≠ some (JVal.str b) := by
  intro e
  injection e with e
  injection e with e
  exact h e

theorem modelReturned_example (modelText : JStr) :
    ModelReturned (exampleEnv modelText) fileRequest modelText :=
  ⟨{ buffer := [37, 80, 68, 70] }, lit "notes", rfl, rfl, rfl⟩

/-- The three ways `validate` fails on a parsed or unparsed text, and the message
of each. -/
theorem validate_error_cases (env : Env) (t reason : JStr)
    (h : validate env t = .error reason) :
    env.jsonParse t = .error reason ∨
    (∃ v, env.jsonParse t = .ok v ∧
      (∀ items, getProp env v (lit "flashcards") ≠ .ok (some (.arr items))) ∧
      ((v ≠ .null ∧ reason = missingArrayMessage) ∨
        (v = .null ∧ reason = env.nullReadMessage (lit "flashcards")))) ∨
    (∃ props cards, env.jsonParse t = .ok (.obj props) ∧
      lookupOwn (lit "flashcards") props = some (.arr cards) ∧
      cards.filter specValidEntry = [] ∧ reason = noValidMessage) := by
  cases hp : env.jsonParse t with
  | error m =>
    rw [validate_of_parse_error env t m hp] at h
    exact Or.inl h
  | ok parsed =>
    refine Or.inr ?_
    by_cases hnull : parsed = .null
    · subst hnull
      rw [validate_of_null env t hp] at h
      refine Or.inl ⟨.null, rfl, ?_, Or.inr ⟨rfl, ?_⟩⟩
      · intro items; simp [getProp]
      · injection h with h; exact h.symm
    · by_cases harr : ∃ items, getProp env parsed (lit "flashcards") = .ok (some (.arr items))
      · obtain ⟨cards, hc⟩ := harr
        cases parsed with
        | obj props =>
          have hl : lookupOwn (lit "flashcards") props = some (.arr cards) := by
            simpa [getProp] using hc
          rw [validate_of_array env t props cards hp hl] at h
          by_cases hf : (cards.filter specValidEntry).length = 0
          · rw [if_pos hf] at h
            refine Or.inr ⟨props, cards, rfl, hl, List.length_eq_zero.mp hf, ?_⟩
            injection h with h; exact h.symm
          · rw [if_neg hf] at h; cases h
        | null => exact absurd rfl hnull
        | bool b => simp [getProp] at hc
        | num x => simp [getProp] at hc
        | str s => simp [getProp] at hc
        | arr items => simp [getProp] at hc
      · have hno : ∀ items, getProp env parsed (lit "flashcards") ≠ .ok (some (.arr items)) :=
          fun items hi => harr ⟨items, hi⟩
        rw [validate_of_no_array env t parsed hp hnull hno] at h
        refine Or.inl ⟨parsed, rfl, hno, Or.inl ⟨hnull, ?_⟩⟩
        injection h with h; exact h.symm

theorem response_of_validate_error (env : Env) (req : Request) (s reason : JStr)
    (hm : ModelReturned env req s) (hv : validate env (normalize s) = .error reason) :
    (handler env req).response = validationError reason (normalize s) := by
  rw [handler_of_modelReturned env req s hm, respondToModelText_eq, hv]

theorem response_of_validate_ok (env : Env) (req : Request) (s : JStr) (v : JVal)
    (hm : ModelReturned env req s) (hv : validate env (normalize s) = .ok v) :
    (handler env req).response = resJson 200 v := by
  rw [handler_of_modelReturned env req s hm, respondToModelText_eq, hv]

/-- A parsed value other than `null` that has no `flashcards` array is answered with
the structure error. -/
theorem missing_array_response (env : Env) (req : Request) (s : JStr) (v : JVal)
    (hm : ModelReturned env req s) (hp : env.jsonParse (normalize s) = .ok v)
    (hv : v ≠ .null)
    (hno : ∀ items, getProp env v (lit "flashcards") ≠ .ok (some (.arr items))) :
    (handler env req).response =
      ⟨500, .obj [(lit "error", .str (lit
          "Model output was not valid JSON. Response missing required \"flashcards\" array")),
        (lit "raw", .str ((normalize s).take 500))]⟩ := by
  rw [response_of_validate_error env req s _ hm (validate_of_no_array env _ v hp hv hno),
    validationError, errorPrefix_missingArray]
  rfl

/-- A parsed `null` is answered with the engine's `TypeError` message, whatever the
engine. -/
theorem null_response (env : Env) (req : Request) (s : JStr)
    (hm : ModelReturned env req s) (hp : env.jsonParse (normalize s) = .ok .null) :
    (handler env req).response =
      validationError (env.nullReadMessage (lit "flashcards")) (normalize s) :=
  response_of_validate_error env req s _ hm (validate_of_null env _ hp)

theorem validate_answering (env : Env) (t x : JStr) :
    validate (answering env t) x = validate env x := by
  unfold validate
  simp only [filterCards_eq]
  rfl

theorem respondToModelText_answering (env : Env) (t x : JStr) :
    respondToModelText (answering env t) x = respondToModelText env x := by
  rw [respondToModelText_eq, respondToModelText_eq, validate_answering]

/-- Under multer's rule a form without a file under `file` is either handed on
without a file or refused as an unexpected field. -/
theorem multerSingleAux_no_file_field :
    ∀ parts : List Part, hasNoFileField { parts := parts } = true →
      multerSingleAux (lit "file") parts none = .ok { file := none } ∨
      multerSingleAux (lit "file") parts none = .error (lit "Unexpected field") := by
  intro parts
  induction parts with
  | nil => intro _; exact Or.inl rfl
  | cons part rest ih =>
    intro h
    simp only [hasNoFileField, List.all_cons, Bool.and_eq_true] at h
    cases part with
    | field name value =>
      simp only [multerSingleAux]
      exact ih (by simpa [hasNoFileField] using h.2)
    | file name buffer =>
      have hn : name ≠ lit "file" := by simpa using h.1
      right
      simp [multerSingleAux, hn]

/-! ## The claims -/

/-- C1, as stated, fails: the model text `{"flashcards":[{"question":1e999,"answer":"A"}]}`
is answered with status 200; the overflowing number passes the filter as `Infinity`
and is sent as `null`, so the question of the returned card is `null`. -/
theorem ok_response_question_null :
    (handler (exampleEnv overflowCardText) fileRequest).response.status = 200 ∧
    (handler (exampleEnv overflowCardText) fileRequest).response.body =
      .obj [(lit "flashcards",
        .arr [.obj [(lit "question", .null), (lit "answer", .str (lit "A"))]])] ∧
    ¬ ∃ cards, bodyField (lit "flashcards")
          (handler (exampleEnv overflowCardText) fileRequest).response = some (.arr cards) ∧
        cards ≠ [] ∧
        ∀ card ∈ cards, ∃ cardProps, card = .obj cardProps ∧
          PresentNonEmpty (lookupOwn (lit "question") cardProps) ∧
          PresentNonEmpty (lookupOwn (lit "answer") cardProps) := by
  refine ⟨rfl, rfl, ?_⟩
  rintro ⟨cards, hb, _, hall⟩
  have hb2 : bodyField (lit "flashcards")
      (handler (exampleEnv overflowCardText) fileRequest).response =
      some (.arr [.obj [(lit "question", .null), (lit "answer", .str (lit "A"))]]) := rfl
  rw [hb2] at hb
  injection hb with hb
  injection hb with hb
  subst hb
  obtain ⟨cardProps, e, ⟨x, hx, hnull, _⟩, _⟩ := hall _ (List.mem_singleton.mpr rfl)
  injection e with e
  subst e
  have hx2 : lookupOwn (lit "question")
      [(lit "question", JVal.null), (lit "answer", .str (lit "A"))] = some .null := rfl
  rw [hx2] at hx
  injection hx with hx
  exact hnull hx.symm

/-- C1, amended: whenever the handler answers with status 200, the model text parsed
to an object whose `flashcards` array has at least one valid entry, the
`flashcards` array of the body is the non-empty list of the valid entries as sent,
and every element of it is an object whose `question` and `answer` are both
present and not the empty string, and are `null` only where the parsed value is a
non-finite number (an overflowing literal). -/
theorem ok_response_flashcards_nonempty_sent (env : Env) (req : Request)
    (h : (handler env req).response.status = 200) :
    ∃ (s : JStr) (props : List (JStr × JVal)) (cards : List JVal),
      ModelReturned env req s ∧ env.jsonParse (normalize s) = .ok (.obj props) ∧
      lookupOwn (lit "flashcards") props = some (.arr cards) ∧
      cards.filter specValidEntry ≠ [] ∧
      bodyField (lit "flashcards") (handler env req).response =
        some (.arr ((cards.filter specValidEntry).map wireValue)) ∧
      (cards.filter specValidEntry).map wireValue ≠ [] ∧
      ∀ card ∈ cards.filter specValidEntry, SentEntry card (wireValue card) := by
  obtain ⟨s, props, cards, hm, hp, hl, hne, hr⟩ := ok_response_inv env req h
  refine ⟨s, props, cards, hm, hp, hl, hne, ?_, ?_, ?_⟩
  · rw [hr, bodyField_flashcards_resJson]
  · intro e
    exact hne (List.map_eq_nil_iff.mp e)
  · intro card hc
    obtain ⟨cardProps, e, hq, ha⟩ := specValidEntry_inv card (List.mem_filter.mp hc).2
    obtain ⟨q, hq2⟩ := some_of_truthy _ hq
    obtain ⟨a, ha2⟩ := some_of_truthy _ ha
    rw [hq2] at hq
    rw [ha2] at ha
    refine ⟨cardProps, wireProps cardProps, q, a, e, by rw [e]; simp [wireValue], hq2, ha2,
      ?_, ?_, nonEmptyOnWire_of_truthy q hq, nonEmptyOnWire_of_truthy a ha⟩
    · rw [lookupOwn_wireProps, hq2]; rfl
    · rw [lookupOwn_wireProps, ha2]; rfl

/-- Witness for the amended C1: the model answers with one well-formed card. -/
theorem ok_response_flashcards_nonempty_sent_witness :
    (handler (exampleEnv singleCardText) fileRequest).response.status = 200 ∧
    ∃ (s : JStr) (props : List (JStr × JVal)) (cards : List JVal),
      ModelReturned (exampleEnv singleCardText) fileRequest s ∧
      (exampleEnv singleCardText).jsonParse (normalize s) = .ok (.obj props) ∧
      lookupOwn (lit "flashcards") props = some (.arr cards) ∧
      cards.filter specValidEntry ≠ [] ∧
      bodyField (lit "flashcards") (handler (exampleEnv singleCardText) fileRequest).response =
        some (.arr ((cards.filter specValidEntry).map wireValue)) ∧
      (cards.filter specValidEntry).map wireValue ≠ [] ∧
      ∀ card ∈ cards.filter specValidEntry, SentEntry card (wireValue card) :=
  ⟨rfl, ok_response_flashcards_nonempty_sent (exampleEnv singleCardText) fileRequest rfl⟩

/-- C2, as stated, fails: for the model text
`{"flashcards":[{"question":1e999,"answer":"A"}]}` the only entry is valid and the
response is 200, but the body shows `null` where the parsed object holds
`Infinity`, so the body is not the parsed object. -/
theorem ok_response_body_not_parsed_object :
    (exampleEnv overflowCardText).jsonParse (normalize overflowCardText) =
      .ok overflowCardValue ∧
    overflowCardValue = .obj [(lit "flashcards",
      .arr [.obj [(lit "question", .num (.infinite false)), (lit "answer", .str (lit "A"))]])] ∧
    specValidEntry
      (.obj [(lit "question", .num (.infinite false)), (lit "answer", .str (lit "A"))]) = true ∧
    (handler (exampleEnv overflowCardText) fileRequest).response.status = 200 ∧
    (handler (exampleEnv overflowCardText) fileRequest).response.body =
      .obj [(lit "flashcards",
        .arr [.obj [(lit "question", .null), (lit "answer", .str (lit "A"))]])] ∧
    (handler (exampleEnv overflowCardText) fileRequest).response.body ≠ overflowCardValue := by
  refine ⟨rfl, rfl, rfl, rfl, rfl, ?_⟩
  intro e
  have e2 := congrArg wireExact e
  have h1 : wireExact (handler (exampleEnv overflowCardText) fileRequest).response.body = true :=
    rfl
  have h2 : wireExact overflowCardValue = false := rfl
  rw [h1, h2] at e2
  exact Bool.noConfusion e2

/-- C2, amended: when the normalized model text parses to an object whose
`flashcards` field is an array with at least one valid entry, the response is 200
and its body is what `JSON.stringify` writes for the parsed object with
`flashcards` replaced by the valid entries, in their original order (a sublist
holding exactly the valid entries); when the parsed object holds no non-finite
number and no negative zero the body is that object itself, and the parsed object
itself when moreover every entry is valid. -/
theorem valid_entries_sent_in_order (env : Env) (req : Request) (s : JStr)
    (props : List (JStr × JVal)) (cards : List JVal)
    (hm : ModelReturned env req s)
    (hp : env.jsonParse (normalize s) = .ok (.obj props))
    (hl : lookupOwn (lit "flashcards") props = some (.arr cards))
    (hv : ∃ card ∈ cards, specValidEntry card = true) :
    (handler env req).response =
      ⟨200, wireValue
        (.obj (setOwn (lit "flashcards") (.arr (cards.filter specValidEntry)) props))⟩ ∧
    (cards.filter specValidEntry).Sublist cards ∧
    (∀ card, card ∈ cards.filter specValidEntry ↔ card ∈ cards ∧ specValidEntry card = true) ∧
    (wireExact (.obj props) = true →
      (handler env req).response =
        ⟨200, .obj (setOwn (lit "flashcards") (.arr (cards.filter specValidEntry)) props)⟩ ∧
      ((∀ card ∈ cards, specValidEntry card = true) →
        (handler env req).response = ⟨200, .obj props⟩)) := by
  have hne : ¬ (cards.filter specValidEntry).length = 0 := by
    obtain ⟨card, hc, hcv⟩ := hv
    intro h0
    have hmem : card ∈ cards.filter specValidEntry := List.mem_filter.mpr ⟨hc, hcv⟩
    rw [List.length_eq_zero.mp h0] at hmem
    exact List.not_mem_nil _ hmem
  have hval := validate_of_array env (normalize s) props cards hp hl
  rw [if_neg hne] at hval
  have hresp : (handler env req).response =
      ⟨200, wireValue
        (.obj (setOwn (lit "flashcards") (.arr (cards.filter specValidEntry)) props))⟩ :=
    response_of_validate_ok env req s _ hm hval
  refine ⟨hresp, List.filter_sublist cards, fun card => List.mem_filter, ?_⟩
  intro hexact
  have hsame : (handler env req).response =
      ⟨200, .obj (setOwn (lit "flashcards") (.arr (cards.filter specValidEntry)) props)⟩ := by
    rw [hresp, wireValue_of_exact _ (wireExact_filtered specValidEntry props cards hexact hl)]
  refine ⟨hsame, ?_⟩
  intro hall
  have hfl : cards.filter specValidEntry = cards := List.filter_eq_self.mpr hall
  rw [hsame, hfl, setOwn_of_lookupOwn _ _ props hl]

/-- Witness for the amended C2: a topic field, one entry without an answer and one
valid entry. -/
theorem valid_entries_sent_in_order_witness :
    ModelReturned (exampleEnv mixedCardsText) fileRequest mixedCardsText ∧
    (handler (exampleEnv mixedCardsText) fileRequest).response =
      ⟨200, .obj [(lit "topic", .str (lit "T")),
        (lit "flashcards",
          .arr [.obj [(lit "question", .str (lit "Q")), (lit "answer", .str (lit "A"))]])]⟩ :=
  ⟨modelReturned_example mixedCardsText,
    (valid_entries_sent_in_order (exampleEnv mixedCardsText) fileRequest mixedCardsText
      [(lit "topic", .str (lit "T")),
        (lit "flashcards",
          .arr [.obj [(lit "question", .str (lit "Q"))],
                .obj [(lit "question", .str (lit "Q")), (lit "answer", .str (lit "A"))]])]
      [.obj [(lit "question", .str (lit "Q"))],
        .obj [(lit "question", .str (lit "Q")), (lit "answer", .str (lit "A"))]]
      (modelReturned_example mixedCardsText) rfl rfl
      ⟨.obj [(lit "question", .str (lit "Q")), (lit "answer", .str (lit "A"))],
        by simp, rfl⟩).1⟩

/-- C3, as stated, fails: the model text `{"flashcards":[{"question":1,"answer":true}]}`
is answered with status 200 and the body keeps the number and the boolean, so the
question of the returned card is not a string. -/
theorem ok_response_question_not_string :
    (handler (exampleEnv numericCardText) fileRequest).response.status = 200 ∧
    (handler (exampleEnv numericCardText) fileRequest).response.body =
      .obj [(lit "flashcards",
        .arr [.obj [(lit "question", .num one), (lit "answer", .bool true)]])] ∧
    ¬ FlashcardsBody IsString (handler (exampleEnv numericCardText) fileRequest).response.body := by
  refine ⟨rfl, rfl, ?_⟩
  rintro ⟨props, cards, hb, hl, hall⟩
  have hb2 : (handler (exampleEnv numericCardText) fileRequest).response.body =
      numericCardValue := rfl
  rw [hb2, numericCardValue] at hb
  injection hb with hb
  subst hb
  have hl2 : lookupOwn (lit "flashcards")
      [(lit "flashcards", JVal.arr [.obj [(lit "question", .num one), (lit "answer", .bool true)]])]
      = some (.arr [.obj [(lit "question", .num one), (lit "answer", .bool true)]]) := rfl
  rw [hl2] at hl
  injection hl with hl
  injection hl with hl
  subst hl
  obtain ⟨cardProps, e, ⟨q, hq⟩, _⟩ := hall _ (List.mem_singleton.mpr rfl)
  injection e with e
  subst e
  have hq2 : lookupOwn (lit "question") [(lit "question", JVal.num one), (lit "answer", .bool true)]
      = some (.num one) := rfl
  rw [hq2] at hq
  injection hq with hq
  cases hq

/-- C3, amended: whenever the handler answers with status 200, the body is an
object whose `flashcards` field is an array, and every element of it is an object
whose `question` and `answer` are present and are each a truthy value (not
necessarily a string) or `null` (a non-finite number as sent). -/
theorem ok_response_entries_truthy_or_null (env : Env) (req : Request)
    (h : (handler env req).response.status = 200) :
    FlashcardsBody TruthyOrNull (handler env req).response.body := by
  obtain ⟨s, props, cards, _, _, _, _, hr⟩ := ok_response_inv env req h
  refine ⟨wireProps (setOwn (lit "flashcards") (.arr (cards.filter specValidEntry)) props),
    (cards.filter specValidEntry).map wireValue, ?_, ?_, ?_⟩
  · rw [hr]; simp [resJson, wireValue]
  · rw [lookupOwn_wireProps, lookupOwn_setOwn]
    simp [wireValue, wireItems_eq_map]
  · intro bodyCard hbc
    obtain ⟨card, hc, rfl⟩ := List.mem_map.mp hbc
    obtain ⟨cardProps, e, hq, ha⟩ := specValidEntry_inv card (List.mem_filter.mp hc).2
    obtain ⟨q, hq2⟩ := some_of_truthy _ hq
    obtain ⟨a, ha2⟩ := some_of_truthy _ ha
    rw [hq2] at hq
    rw [ha2] at ha
    refine ⟨wireProps cardProps, by rw [e]; simp [wireValue], ?_, ?_⟩
    · rw [lookupOwn_wireProps, hq2]; exact truthyOrNull_of_truthy q hq
    · rw [lookupOwn_wireProps, ha2]; exact truthyOrNull_of_truthy a ha

/-- Witness for the amended C3: the card with a number and a boolean. -/
theorem ok_response_entries_truthy_or_null_witness :
    (handler (exampleEnv numericCardText) fileRequest).response.status = 200 ∧
    FlashcardsBody TruthyOrNull
      (handler (exampleEnv numericCardText) fileRequest).response.body :=
  ⟨rfl, ok_response_entries_truthy_or_null (exampleEnv numericCardText) fileRequest rfl⟩

/-- C4, as stated, fails: a form whose only part is a file under the field name
`document` carries no `file` field, yet the upload middleware refuses it, the
callback never runs, and the client gets the framework's default error response
instead of the 400 JSON response. -/
theorem wrong_field_name_not_400 :
    hasNoFileField wrongNameForm = true ∧
    (route (exampleEnv singleCardText) wrongNameForm).response =
      .defaultError (lit "Unexpected field") ∧
    (route (exampleEnv singleCardText) wrongNameForm).response ≠
      .json ⟨400, .obj [(lit "error", .str (lit "No file uploaded."))]⟩ := by
  refine ⟨rfl, rfl, ?_⟩
  intro e
  have e2 : (route (exampleEnv singleCardText) wrongNameForm).response =
      .defaultError (lit "Unexpected field") := rfl
  rw [e2] at e
  cases e

/-- C4, amended: a request that the upload middleware hands to the callback without
a file is answered with status 400 and the body `{ error: "No file uploaded." }`;
a request that the middleware refuses gets the framework's default error response
and never reaches the callback; in both cases no external call (text extraction
or generation) is made. Under multer's rule for `single('file')` every request
that carries no file under `file` is one of these two cases. -/
theorem no_file_route_response (env : Env) (http : HttpRequest) :
    (∀ req, env.upload http = .ok req → req.file = none →
      (route env http).response =
        .json ⟨400, .obj [(lit "error", .str (lit "No file uploaded."))]⟩ ∧
      (route env http).calls = []) ∧
    (∀ message, env.upload http = .error message →
      (route env http).response = .defaultError message ∧ (route env http).calls = []) ∧
    (env.upload = multerSingle (lit "file") → hasNoFileField http = true →
      (route env http).calls = [] ∧
      ((route env http).response =
          .json ⟨400, .obj [(lit "error", .str (lit "No file uploaded."))]⟩ ∨
        (route env http).response = .defaultError (lit "Unexpected field"))) := by
  have hpass : ∀ req, env.upload http = .ok req → req.file = none →
      (route env http).response =
        .json ⟨400, .obj [(lit "error", .str (lit "No file uploaded."))]⟩ ∧
      (route env http).calls = [] := by
    intro req hu hf
    have hh := handler_no_file env req hf
    simp only [route, hu]
    exact ⟨by rw [hh.1], hh.2⟩
  have hrefuse : ∀ message, env.upload http = .error message →
      (route env http).response = .defaultError message ∧ (route env http).calls = [] := by
    intro message hu
    have hh : route env http = { response := .defaultError message, calls := [] } := by
      simp [route, hu]
    rw [hh]
    exact ⟨rfl, rfl⟩
  refine ⟨hpass, hrefuse, ?_⟩
  intro hmulter hno
  have hcases := multerSingleAux_no_file_field http.parts hno
  have hup : env.upload http = multerSingleAux (lit "file") http.parts none := by
    rw [hmulter]; rfl
  rcases hcases with hok | herr
  · have h1 := hpass { file := none } (by rw [hup, hok]) rfl
    exact ⟨h1.2, Or.inl h1.1⟩
  · have h2 := hrefuse (lit "Unexpected field") (by rw [hup, herr])
    exact ⟨h2.2, Or.inr h2.1⟩

/-- Witness for the amended C4: a form with a text field and no file, and the form
with a file under another field name. -/
theorem no_file_route_response_witness :
    ((route (exampleEnv singleCardText) noFileForm).response =
        .json ⟨400, .obj [(lit "error", .str (lit "No file uploaded."))]⟩ ∧
      (route (exampleEnv singleCardText) noFileForm).calls = []) ∧
    ((route (exampleEnv singleCardText) wrongNameForm).response =
        .defaultError (lit "Unexpected field") ∧
      (route (exampleEnv singleCardText) wrongNameForm).calls = []) :=
  ⟨(no_file_route_response (exampleEnv singleCardText) noFileForm).1 { file := none } rfl rfl,
    (no_file_route_response (exampleEnv singleCardText) wrongNameForm).2.1
      (lit "Unexpected field") rfl⟩

/-- C5: for every string `s`, the model text made of the `json` fence opener, a
line feed, `s`, a line feed and the fence closer normalizes to the same text as
`s`; hence `JSON.parse` is given the same text, and the handler's response is the
same for the wrapped and the unwrapped model text. -/
theorem fenced_output_same_response (s : JStr) :
    wrapInFence s = lit "```json" ++ lit "\n" ++ s ++ lit "\n" ++ lit "```" ∧
    normalize (wrapInFence s) = normalize s ∧
    (∀ env : Env, env.jsonParse (normalize (wrapInFence s)) = env.jsonParse (normalize s)) ∧
    (∀ env : Env, respondToModelText env (wrapInFence s) = respondToModelText env s) ∧
    (∀ (env : Env) (req : Request),
      (handler (answering env (wrapInFence s)) req).response =
        (handler (answering env s) req).response) := by
  have hn := normalize_wrapInFence s
  have hr : ∀ env : Env, respondToModelText env (wrapInFence s) = respondToModelText env s := by
    intro env
    rw [respondToModelText_eq, respondToModelText_eq, hn]
  refine ⟨rfl, hn, fun env => by rw [hn], hr, ?_⟩
  intro env req
  have hr2 : ∀ t, respondToModelText (answering env t) = respondToModelText env :=
    fun t => funext (respondToModelText_answering env t)
  unfold handler
  cases req.file with
  | none => rfl
  | some file =>
    cases he : env.pdfParse file.buffer with
    | error e => simp [answering, he]
    | ok text =>
      have hr3 := hr env
      simp only [answering, he] at hr2 ⊢
      rw [hr2, hr2, hr3]

/-- C6 at the model text `null`: the response is 500 with a `raw` field, but its
error message carries the engine's `TypeError` text, not the message that
line 66 throws for a missing array. -/
theorem null_output_type_error_message :
    (handler (exampleEnv nullText) fileRequest).response.status = 500 ∧
    bodyField (lit "raw") (handler (exampleEnv nullText) fileRequest).response =
      some (.str (lit "null")) ∧
    bodyField (lit "error") (handler (exampleEnv nullText) fileRequest).response =
      some (.str (lit ("Model output was not valid JSON. " ++
        "Cannot read properties of null (reading \x27flashcards\x27)"))) ∧
    bodyField (lit "error") (handler (exampleEnv nullText) fileRequest).response ≠
      some (.str (lit ("Model output was not valid JSON. " ++
        "Response missing required \"flashcards\" array"))) :=
  ⟨rfl, rfl, rfl, str_ne _ _ (by decide)⟩

/-- C7, as stated, fails: for the prose `I could not find any study material.`
followed by a line feed, parsing fails and the response is 500, but `raw` is the
trimmed text, which is not the first 500 characters of the model output. -/
theorem prose_raw_not_model_output :
    (exampleEnv proseText).jsonParse (normalize proseText) = .error (lit "Unexpected token") ∧
    (handler (exampleEnv proseText) fileRequest).response.status = 500 ∧
    bodyField (lit "raw") (handler (exampleEnv proseText) fileRequest).response =
      some (.str (lit "I could not find any study material.")) ∧
    bodyField (lit "raw") (handler (exampleEnv proseText) fileRequest).response ≠
      some (.str (proseText.take 500)) :=
  ⟨rfl, rfl, rfl, str_ne _ _ (by decide)⟩

/-- C7, amended: when the normalized model text does not parse, the response is
500, its error is the validation prefix followed by the parser's message, and
`raw` is the first 500 characters of the normalized (fence-stripped, trimmed)
text; that is the first 500 characters of the model output itself when the output
has no fence marker and no leading or trailing whitespace. -/
theorem parse_failure_response (env : Env) (req : Request) (s message : JStr)
    (hm : ModelReturned env req s)
    (hp : env.jsonParse (normalize s) = .error message) :
    (handler env req).response =
      ⟨500, .obj [(lit "error", .str (lit "Model output was not valid JSON. " ++ message)),
        (lit "raw", .str ((normalize s).take 500))]⟩ ∧
    (¬ fence <:+: s → trim s = s → (normalize s).take 500 = s.take 500) := by
  refine ⟨?_, fun hf ht => by rw [normalize_of_clean s hf ht]⟩
  rw [response_of_validate_error env req s _ hm (validate_of_parse_error env _ _ hp)]
  rfl

/-- Witness for the amended C7: the prose example. -/
theorem parse_failure_response_witness :
    ModelReturned (exampleEnv proseText) fileRequest proseText ∧
    (exampleEnv proseText).jsonParse (normalize proseText) = .error (lit "Unexpected token") ∧
    (handler (exampleEnv proseText) fileRequest).response =
      ⟨500, .obj [(lit "error",
          .str (lit "Model output was not valid JSON. " ++ lit "Unexpected token")),
        (lit "raw", .str ((normalize proseText).take 500))]⟩ :=
  ⟨modelReturned_example proseText, rfl,
    (parse_failure_response (exampleEnv proseText) fileRequest proseText
      (lit "Unexpected token") (modelReturned_example proseText) rfl).1⟩

/-- C8: when validation of the model text fails with message `reason` (the parser's
message, the `TypeError` or structure message for a missing `flashcards` array, or
the message for no valid flashcards), the response is 500 with
`error = 'Model output was not valid JSON. ' + reason` and `raw` the first 500
characters of the normalized text: a prefix of it, at most 500 long, and the whole
text when that is at most 500 long. -/
theorem validation_error_response (env : Env) (req : Request) (s reason : JStr)
    (hm : ModelReturned env req s)
    (hv : validate env (normalize s) = .error reason) :
    (handler env req).response =
      ⟨500, .obj [(lit "error", .str (lit "Model output was not valid JSON. " ++ reason)),
        (lit "raw", .str ((normalize s).take 500))]⟩ ∧
    (normalize s).take 500 <+: normalize s ∧
    ((normalize s).take 500).length ≤ 500 ∧
    ((normalize s).length ≤ 500 → (normalize s).take 500 = normalize s) ∧
    (env.jsonParse (normalize s) = .error reason ∨
      (∃ v, env.jsonParse (normalize s) = .ok v ∧
        (∀ items, getProp env v (lit "flashcards") ≠ .ok (some (.arr items))) ∧
        ((v ≠ .null ∧ reason = missingArrayMessage) ∨
          (v = .null ∧ reason = env.nullReadMessage (lit "flashcards")))) ∨
      (∃ props cards, env.jsonParse (normalize s) = .ok (.obj props) ∧
        lookupOwn (lit "flashcards") props = some (.arr cards) ∧
        cards.filter specValidEntry = [] ∧ reason = noValidMessage)) := by
  refine ⟨?_, List.take_prefix _ _, ?_, fun hlen => List.take_of_length_le hlen,
    validate_error_cases env _ _ hv⟩
  · rw [response_of_validate_error env req s _ hm hv]
    rfl
  · rw [List.length_take]
    exact Nat.min_le_left _ _

/-- Witness for C8: the wrong field name, inside a code fence. -/
theorem validation_error_response_witness :
    ModelReturned (exampleEnv (wrapInFence wrongFieldText)) fileRequest
      (wrapInFence wrongFieldText) ∧
    validate (exampleEnv (wrapInFence wrongFieldText)) (normalize (wrapInFence wrongFieldText)) =
      .error missingArrayMessage ∧
    (handler (exampleEnv (wrapInFence wrongFieldText)) fileRequest).response =
      ⟨500, .obj [(lit "error",
          .str (lit "Model output was not valid JSON. " ++ missingArrayMessage)),
        (lit "raw", .str ((normalize (wrapInFence wrongFieldText)).take 500))]⟩ :=
  ⟨modelReturned_example _, rfl,
    (validation_error_response (exampleEnv (wrapInFence wrongFieldText)) fileRequest
      (wrapInFence wrongFieldText) missingArrayMessage (modelReturned_example _) rfl).1⟩

/-- C9: when the normalized model text parses to an object whose `flashcards` field
is an array with no valid entry (the empty array included), the response is not
200: it is 500 with
`error = 'Model output was not valid JSON. No valid flashcards found in response'`
and a `raw` field. -/
theorem no_valid_entries_response (env : Env) (req : Request) (s : JStr)
    (props : List (JStr × JVal)) (cards : List JVal)
    (hm : ModelReturned env req s)
    (hp : env.jsonParse (normalize s) = .ok (.obj props))
    (hl : lookupOwn (lit "flashcards") props = some (.arr cards))
    (hv : ∀ card ∈ cards, specValidEntry card = false) :
    (handler env req).response.status ≠ 200 ∧
    (handler env req).response =
      ⟨500, .obj [(lit "error", .str (lit
          "Model output was not valid JSON. No valid flashcards found in response")),
        (lit "raw", .str ((normalize s).take 500))]⟩ := by
  have hnil : cards.filter specValidEntry = [] :=
    List.filter_eq_nil_iff.mpr (fun card hc => by simp [hv card hc])
  have hval := validate_of_array env (normalize s) props cards hp hl
  rw [if_pos (by rw [hnil]; rfl)] at hval
  have hresp := response_of_validate_error env req s _ hm hval
  rw [validationError, errorPrefix_noValid] at hresp
  exact ⟨by rw [hresp]; simp [resJson], hresp⟩

/-- Witness for C9: the single entry that lacks an answer. -/
theorem no_valid_entries_response_witness :
    ModelReturned (exampleEnv missingAnswerText) fileRequest missingAnswerText ∧
    (handler (exampleEnv missingAnswerText) fileRequest).response.status ≠ 200 ∧
    (handler (exampleEnv missingAnswerText) fileRequest).response =
      ⟨500, .obj [(lit "error", .str (lit
          "Model output was not valid JSON. No valid flashcards found in response")),
        (lit "raw", .str ((normalize missingAnswerText).take 500))]⟩ :=
  ⟨modelReturned_example missingAnswerText,
    no_valid_entries_response (exampleEnv missingAnswerText) fileRequest missingAnswerText
      [(lit "flashcards", .arr [.obj [(lit "question", .str (lit "Q"))]])]
      [.obj [(lit "question", .str (lit "Q"))]]
      (modelReturned_example missingAnswerText) rfl rfl
      (by intro card hc; rw [List.mem_singleton.mp hc]; rfl)⟩

/-- C10: stripping the fence markers from a text that contains no triple-backtick
marker returns it unchanged; for every text the normalized text contains no fence
marker (neither the bare one nor the `json` opener); and normalizing a normalized
text returns it unchanged. -/
theorem normalize_idempotent :
    (∀ s : JStr, ¬ lit "```" <:+: s → stripFences s = s) ∧
    (∀ s : JStr, ¬ lit "```" <:+: normalize s ∧ ¬ lit "```json" <:+: normalize s) ∧
    (∀ s : JStr, normalize (normalize s) = normalize s) := by
  have hnf : ∀ s : JStr, ¬ fence <:+: normalize s := fun s h =>
    fence_not_infix_replaceAll _ (List.IsInfix.trans h (trim_within _))
  refine ⟨?_, ?_, ?_⟩
  · intro s hf
    have hf2 : ¬ fence <:+: s := hf
    have hj : ¬ fenceJson <:+: s := fun h => hf2 (List.IsInfix.trans fence_infix_fenceJson h)
    unfold stripFences
    rw [replaceAll_of_absent _ _ hj, replaceAll_of_absent _ _ hf2]
  · intro s
    exact ⟨hnf s, fun h => hnf s (List.IsInfix.trans fence_infix_fenceJson h)⟩
  · intro s
    refine normalize_of_clean _ (hnf s) ?_
    exact trim_trim _

end StudyChatBot
